import Mathlib

/-!
Verification of the phosg binary reader/writer core (src/src/Strings.hh)
against its natural-language specification.

The embedding models a byte buffer as a `List Nat` whose entries are the
byte values (each `< 256` where it matters, stated as a hypothesis).
`size_t` arithmetic from the C++ source is modelled exactly: additions that
the source performs on `size_t` are taken modulo `2 ^ 64` (`add64`), since
several claims hinge on whether those additions can wrap.

Exceptions (`std::out_of_range`, `std::runtime_error`) are modelled with
`Option`/pairs: an operation that can throw returns `none` for the thrown
case, and stateful member functions are embedded by explicit state passing,
returning the post-state that the C++ object holds when the function
returns or throws.
-/

namespace Phosg

/-- `size_t` addition: the C++ source adds offsets and sizes as 64-bit
unsigned integers, which wrap modulo `2 ^ 64`. -/
def add64 (a b : Nat) : Nat := (a + b) % 2 ^ 64

/-! ## StringReader -/

/-- `StringReader` (src/src/Strings.hh:442-645): an immutable byte buffer
(`data`, with `length = data.length`) and a mutable cursor `offset`.
`where()` returns `offset`. -/
structure StringReader where
  data : List Nat
  offset : Nat
deriving DecidableEq, Repr

/-- `StringReader::pgetv(offset, size)` (src/src/Strings.hh:480-485):
throws `std::out_of_range` when `offset + size > length` (the sum computed
in `size_t`, i.e. modulo `2 ^ 64`), otherwise returns `data + offset`,
i.e. the bytes starting at `offset`.  (In the wrapped case where the check
passes although `offset + size` overflows, the C++ reads out of bounds —
undefined behavior; the model returns the in-range truncation of the span,
and only the `none`/`some` distinction is relied on there.) -/
def StringReader.pgetv (r : StringReader) (offset size : Nat) : Option (List Nat) :=
  if add64 offset size > r.data.length then none
  else some ((r.data.drop offset).take size)

/-- `StringReader::getv(size, advance)` (src/src/Strings.hh:491-497):
`pgetv(this->offset, size)`, then `offset += size` when `advance`.  The
exception from `pgetv` propagates before the cursor update runs, so the
post-state on failure is the pre-state. -/
def StringReader.getv (r : StringReader) (size : Nat) (advance : Bool) :
    Option (List Nat) × StringReader :=
  match r.pgetv r.offset size with
  | none => (none, r)
  | some bs => (some bs, if advance then { r with offset := add64 r.offset size } else r)

/-- `StringReader::pget_u24b(offset)` (src/src/Strings.hh:579-584): checks
`offset + 3 > length` (size_t), then assembles
`(data[offset] << 16) | (data[offset+1] << 8) | data[offset+2]`. -/
def StringReader.pget_u24b (r : StringReader) (offset : Nat) : Option Nat :=
  if add64 offset 3 > r.data.length then none
  else some ((r.data.getD offset 0) <<< 16 ||| (r.data.getD (offset + 1) 0) <<< 8 |||
    r.data.getD (offset + 2) 0)

/-- `StringReader::pget_u24l(offset)` (src/src/Strings.hh:585-590):
`data[offset] | (data[offset+1] << 8) | (data[offset+2] << 16)`. -/
def StringReader.pget_u24l (r : StringReader) (offset : Nat) : Option Nat :=
  if add64 offset 3 > r.data.length then none
  else some ((r.data.getD offset 0) ||| (r.data.getD (offset + 1) 0) <<< 8 |||
    (r.data.getD (offset + 2) 0) <<< 16)

/-- `StringReader::pget_u48b(offset)` (src/src/Strings.hh:610-620): checks
`offset + 6 > length` (size_t), then assembles the six bytes most
significant first. -/
def StringReader.pget_u48b (r : StringReader) (offset : Nat) : Option Nat :=
  if add64 offset 6 > r.data.length then none
  else some ((r.data.getD offset 0) <<< 40 ||| (r.data.getD (offset + 1) 0) <<< 32 |||
    (r.data.getD (offset + 2) 0) <<< 24 ||| (r.data.getD (offset + 3) 0) <<< 16 |||
    (r.data.getD (offset + 4) 0) <<< 8 ||| r.data.getD (offset + 5) 0)

/-- `StringReader::pget_u48l(offset)` (src/src/Strings.hh:621-631): the six
bytes least significant first. -/
def StringReader.pget_u48l (r : StringReader) (offset : Nat) : Option Nat :=
  if add64 offset 6 > r.data.length then none
  else some ((r.data.getD offset 0) ||| (r.data.getD (offset + 1) 0) <<< 8 |||
    (r.data.getD (offset + 2) 0) <<< 16 ||| (r.data.getD (offset + 3) 0) <<< 24 |||
    (r.data.getD (offset + 4) 0) <<< 32 ||| (r.data.getD (offset + 5) 0) <<< 40)

/-- Modelled from the spec: two's-complement interpretation of a `w`-bit
unsigned value as a signed integer ("converting a narrow two's-complement
value to a wider signed integer while preserving its numeric value",
spec glossary).  The typed signed reads of Encoding.hh (not under src/)
are embedded through this. -/
def sExt (w : Nat) (u : Nat) : Int :=
  if u < 2 ^ (w - 1) then (u : Int) else (u : Int) - 2 ^ w

/-- Modelled from the spec: `ext24` (Encoding.hh, not under src/) —
"two's-complement sign extension from the narrow width to the next native
width" (spec §4.1), 24 bits to int32. -/
def ext24 (u : Nat) : Int := sExt 24 u

/-- Modelled from the spec: `ext48` (Encoding.hh, not under src/), 48 bits
to int64. -/
def ext48 (u : Nat) : Int := sExt 48 u

/-- `StringReader::pget_s24b(offset)` (src/src/Strings.hh:591):
`ext24(pget_u24b(offset))`. -/
def StringReader.pget_s24b (r : StringReader) (offset : Nat) : Option Int :=
  (r.pget_u24b offset).map ext24

/-- `StringReader::pget_s24l(offset)` (src/src/Strings.hh:592). -/
def StringReader.pget_s24l (r : StringReader) (offset : Nat) : Option Int :=
  (r.pget_u24l offset).map ext24

/-- `StringReader::pget_s48b(offset)` (src/src/Strings.hh:632). -/
def StringReader.pget_s48b (r : StringReader) (offset : Nat) : Option Int :=
  (r.pget_u48b offset).map ext48

/-- `StringReader::pget_s48l(offset)` (src/src/Strings.hh:633). -/
def StringReader.pget_s48l (r : StringReader) (offset : Nat) : Option Int :=
  (r.pget_u48l offset).map ext48

/-- `StringReader::get_u24b(advance)` (src/src/Strings.hh:562-568):
`pget_u24b(this->offset)`, then `offset += 3` when `advance`; the
exception propagates before the cursor update. -/
def StringReader.get_u24b (r : StringReader) (advance : Bool) :
    Option Nat × StringReader :=
  match r.pget_u24b r.offset with
  | none => (none, r)
  | some v => (some v, if advance then { r with offset := add64 r.offset 3 } else r)

/-- `StringReader::get_u24l(advance)` (src/src/Strings.hh:569-575). -/
def StringReader.get_u24l (r : StringReader) (advance : Bool) :
    Option Nat × StringReader :=
  match r.pget_u24l r.offset with
  | none => (none, r)
  | some v => (some v, if advance then { r with offset := add64 r.offset 3 } else r)

/-- `StringReader::get_s24b(advance)` (src/src/Strings.hh:576):
`ext24(get_u24b(advance))`. -/
def StringReader.get_s24b (r : StringReader) (advance : Bool) :
    Option Int × StringReader :=
  let p := r.get_u24b advance
  (p.1.map ext24, p.2)

/-- `StringReader::get_s24l(advance)` (src/src/Strings.hh:577). -/
def StringReader.get_s24l (r : StringReader) (advance : Bool) :
    Option Int × StringReader :=
  let p := r.get_u24l advance
  (p.1.map ext24, p.2)

/-- `StringReader::get_u48b(advance)` (src/src/Strings.hh:594-600). -/
def StringReader.get_u48b (r : StringReader) (advance : Bool) :
    Option Nat × StringReader :=
  match r.pget_u48b r.offset with
  | none => (none, r)
  | some v => (some v, if advance then { r with offset := add64 r.offset 6 } else r)

/-- `StringReader::get_u48l(advance)` (src/src/Strings.hh:601-607). -/
def StringReader.get_u48l (r : StringReader) (advance : Bool) :
    Option Nat × StringReader :=
  match r.pget_u48l r.offset with
  | none => (none, r)
  | some v => (some v, if advance then { r with offset := add64 r.offset 6 } else r)

/-- `StringReader::get_s48b(advance)` (src/src/Strings.hh:608). -/
def StringReader.get_s48b (r : StringReader) (advance : Bool) :
    Option Int × StringReader :=
  let p := r.get_u48b advance
  (p.1.map ext48, p.2)

/-- `StringReader::get_s48l(advance)` (src/src/Strings.hh:609). -/
def StringReader.get_s48l (r : StringReader) (advance : Bool) :
    Option Int × StringReader :=
  let p := r.get_u48l advance
  (p.1.map ext48, p.2)

/-- Modelled from the spec: decoding a byte sequence as a big-endian
unsigned integer, most significant byte first (the storage layout of the
`be_*` types of Encoding.hh, which is not under src/; spec §3:
"big-endian ... byte layout for that field"). -/
def beDecode (bs : List Nat) : Nat := bs.foldl (fun acc b => acc * 256 + b) 0

/-- Modelled from the spec: decoding a byte sequence as a little-endian
unsigned integer, least significant byte first (the `le_*` types of
Encoding.hh, not under src/). -/
def leDecode (bs : List Nat) : Nat := bs.foldr (fun b acc => b + acc * 256) 0

/-- `StringReader::get_u8(advance)` (src/src/Strings.hh:520): a one-byte
typed read at the cursor. -/
def StringReader.get_u8 (r : StringReader) (advance : Bool) :
    Option Nat × StringReader :=
  let p := r.getv 1 advance
  (p.1.map beDecode, p.2)

/-- `StringReader::get_s8(advance)` (src/src/Strings.hh:521). -/
def StringReader.get_s8 (r : StringReader) (advance : Bool) :
    Option Int × StringReader :=
  let p := r.getv 1 advance
  (p.1.map (fun bs => sExt 8 (beDecode bs)), p.2)

/-- `StringReader::get_u16b(advance)` (src/src/Strings.hh:525):
`get<be_uint16_t>` — a bounds-checked two-byte read at the cursor, decoded
most significant byte first (decoding modelled from the spec, Encoding.hh
not under src/). -/
def StringReader.get_u16b (r : StringReader) (advance : Bool) :
    Option Nat × StringReader :=
  let p := r.getv 2 advance
  (p.1.map beDecode, p.2)

/-- `StringReader::get_u16l(advance)` (src/src/Strings.hh:526). -/
def StringReader.get_u16l (r : StringReader) (advance : Bool) :
    Option Nat × StringReader :=
  let p := r.getv 2 advance
  (p.1.map leDecode, p.2)

/-- `StringReader::get_s16b(advance)` (src/src/Strings.hh:527). -/
def StringReader.get_s16b (r : StringReader) (advance : Bool) :
    Option Int × StringReader :=
  let p := r.getv 2 advance
  (p.1.map (fun bs => sExt 16 (beDecode bs)), p.2)

/-- `StringReader::get_s16l(advance)` (src/src/Strings.hh:528). -/
def StringReader.get_s16l (r : StringReader) (advance : Bool) :
    Option Int × StringReader :=
  let p := r.getv 2 advance
  (p.1.map (fun bs => sExt 16 (leDecode bs)), p.2)

/-- `StringReader::get_u32b(advance)` (src/src/Strings.hh:534). -/
def StringReader.get_u32b (r : StringReader) (advance : Bool) :
    Option Nat × StringReader :=
  let p := r.getv 4 advance
  (p.1.map beDecode, p.2)

/-- `StringReader::get_u32l(advance)` (src/src/Strings.hh:535). -/
def StringReader.get_u32l (r : StringReader) (advance : Bool) :
    Option Nat × StringReader :=
  let p := r.getv 4 advance
  (p.1.map leDecode, p.2)

/-- `StringReader::get_s32b(advance)` (src/src/Strings.hh:536). -/
def StringReader.get_s32b (r : StringReader) (advance : Bool) :
    Option Int × StringReader :=
  let p := r.getv 4 advance
  (p.1.map (fun bs => sExt 32 (beDecode bs)), p.2)

/-- `StringReader::get_s32l(advance)` (src/src/Strings.hh:537). -/
def StringReader.get_s32l (r : StringReader) (advance : Bool) :
    Option Int × StringReader :=
  let p := r.getv 4 advance
  (p.1.map (fun bs => sExt 32 (leDecode bs)), p.2)

/-- `StringReader::get_u64b(advance)` (src/src/Strings.hh:543). -/
def StringReader.get_u64b (r : StringReader) (advance : Bool) :
    Option Nat × StringReader :=
  let p := r.getv 8 advance
  (p.1.map beDecode, p.2)

/-- `StringReader::get_u64l(advance)` (src/src/Strings.hh:544). -/
def StringReader.get_u64l (r : StringReader) (advance : Bool) :
    Option Nat × StringReader :=
  let p := r.getv 8 advance
  (p.1.map leDecode, p.2)

/-- `StringReader::get_s64b(advance)` (src/src/Strings.hh:545). -/
def StringReader.get_s64b (r : StringReader) (advance : Bool) :
    Option Int × StringReader :=
  let p := r.getv 8 advance
  (p.1.map (fun bs => sExt 64 (beDecode bs)), p.2)

/-- `StringReader::get_s64l(advance)` (src/src/Strings.hh:546). -/
def StringReader.get_s64l (r : StringReader) (advance : Bool) :
    Option Int × StringReader :=
  let p := r.getv 8 advance
  (p.1.map (fun bs => sExt 64 (leDecode bs)), p.2)

/-- Modelled from the spec: `StringReader::pread(offset, size)` is declared
`const` at src/src/Strings.hh:475 but its body lives in Strings.cc, which
is not under src/.  Spec §4.1: a positional `read` copies out the
requested bytes, bounds-checked, and a `const` positional read cannot move
the cursor; so it is the copy of `pgetv`'s span with the state returned
unchanged. -/
def StringReader.pread (r : StringReader) (offset size : Nat) :
    Option (List Nat) × StringReader :=
  (r.pgetv offset size, r)

/-! ## StringWriter and BufferWriter -/

/-- `memcpy(dest + offset, src, n)` into a buffer modelled as a list:
bytes are stored one by one at `offset`, `offset+1`, ....  A store past the
end of the buffer (undefined behavior in the C++ source) is modelled as a
dropped store (`List.set` out of range is the identity); in particular the
buffer's size never changes, exactly as `memcpy` never changes the size of
its destination object. -/
def storeBytes : List Nat → Nat → List Nat → List Nat
  | c, _, [] => c
  | c, o, b :: bs => storeBytes (c.set o b) (o + 1) bs

/-- `StringWriter` (src/src/Strings.hh:647-771): a growable owned byte
buffer `contents`; `size()` returns `contents.length`. -/
structure StringWriter where
  contents : List Nat
deriving DecidableEq, Repr

/-- `StringWriter::pput<T>(offset, v)` (src/src/Strings.hh:669-675), with
the `sizeof(T)` bytes of `v`'s encoding passed as `bs`:
`if (offset + sizeof(T) > contents.size()) contents.resize(offset +
sizeof(T), '\0'); memcpy(contents.data() + offset, &v, sizeof(v));` —
the comparison and the resize length are `size_t` arithmetic, modulo
`2 ^ 64`. -/
def StringWriter.pput (w : StringWriter) (offset : Nat) (bs : List Nat) : StringWriter :=
  let grown :=
    if add64 offset bs.length > w.contents.length then
      w.contents ++ List.replicate (add64 offset bs.length - w.contents.length) 0
    else w.contents
  ⟨storeBytes grown offset bs⟩

/-- Modelled from the spec: big-endian encoding of the low `8 * n` bits of
a value, most significant byte first (the storage layout written by
`put<be_*>`; Encoding.hh is not under src/). -/
def beBytes : Nat → Nat → List Nat
  | 0, _ => []
  | n + 1, v => (v >>> (8 * n)) % 256 :: beBytes n v

/-- Modelled from the spec: little-endian encoding, least significant byte
first. -/
def leBytes : Nat → Nat → List Nat
  | 0, _ => []
  | n + 1, v => v % 256 :: leBytes n (v >>> 8)

/-- Modelled from the spec: the `w`-bit two's-complement representation of
a signed value, as an unsigned integer below `2 ^ w` (what storing a
signed integer into a `w`-bit field keeps). -/
def toUnsigned (w : Nat) (v : Int) : Nat := (v % ((2 : Int) ^ w)).toNat

/-- `StringWriter::put_u8(v)` (src/src/Strings.hh:677): appends the one
byte of `v`. -/
def StringWriter.put_u8 (w : StringWriter) (v : Nat) : StringWriter :=
  ⟨w.contents ++ [v % 2 ^ 8]⟩

/-- `StringWriter::put_s8(v)` (src/src/Strings.hh:678). -/
def StringWriter.put_s8 (w : StringWriter) (v : Int) : StringWriter :=
  ⟨w.contents ++ [toUnsigned 8 v]⟩

/-- `StringWriter::put_u16b(v)` (src/src/Strings.hh:697): appends the two
bytes of `v`, most significant first. -/
def StringWriter.put_u16b (w : StringWriter) (v : Nat) : StringWriter :=
  ⟨w.contents ++ beBytes 2 (v % 2 ^ 16)⟩

/-- `StringWriter::put_s16b(v)` (src/src/Strings.hh:698). -/
def StringWriter.put_s16b (w : StringWriter) (v : Int) : StringWriter :=
  ⟨w.contents ++ beBytes 2 (toUnsigned 16 v)⟩

/-- `StringWriter::put_u16l(v)` (src/src/Strings.hh:706). -/
def StringWriter.put_u16l (w : StringWriter) (v : Nat) : StringWriter :=
  ⟨w.contents ++ leBytes 2 (v % 2 ^ 16)⟩

/-- `StringWriter::put_s16l(v)` (src/src/Strings.hh:707). -/
def StringWriter.put_s16l (w : StringWriter) (v : Int) : StringWriter :=
  ⟨w.contents ++ leBytes 2 (toUnsigned 16 v)⟩

/-- `StringWriter::put_u32b(v)` (src/src/Strings.hh:699). -/
def StringWriter.put_u32b (w : StringWriter) (v : Nat) : StringWriter :=
  ⟨w.contents ++ beBytes 4 (v % 2 ^ 32)⟩

/-- `StringWriter::put_s32b(v)` (src/src/Strings.hh:700). -/
def StringWriter.put_s32b (w : StringWriter) (v : Int) : StringWriter :=
  ⟨w.contents ++ beBytes 4 (toUnsigned 32 v)⟩

/-- `StringWriter::put_u32l(v)` (src/src/Strings.hh:708). -/
def StringWriter.put_u32l (w : StringWriter) (v : Nat) : StringWriter :=
  ⟨w.contents ++ leBytes 4 (v % 2 ^ 32)⟩

/-- `StringWriter::put_s32l(v)` (src/src/Strings.hh:709). -/
def StringWriter.put_s32l (w : StringWriter) (v : Int) : StringWriter :=
  ⟨w.contents ++ leBytes 4 (toUnsigned 32 v)⟩

/-- `StringWriter::put_u64b(v)` (src/src/Strings.hh:701). -/
def StringWriter.put_u64b (w : StringWriter) (v : Nat) : StringWriter :=
  ⟨w.contents ++ beBytes 8 (v % 2 ^ 64)⟩

/-- `StringWriter::put_s64b(v)` (src/src/Strings.hh:702). -/
def StringWriter.put_s64b (w : StringWriter) (v : Int) : StringWriter :=
  ⟨w.contents ++ beBytes 8 (toUnsigned 64 v)⟩

/-- `StringWriter::put_u64l(v)` (src/src/Strings.hh:710). -/
def StringWriter.put_u64l (w : StringWriter) (v : Nat) : StringWriter :=
  ⟨w.contents ++ leBytes 8 (v % 2 ^ 64)⟩

/-- `StringWriter::put_s64l(v)` (src/src/Strings.hh:711). -/
def StringWriter.put_s64l (w : StringWriter) (v : Int) : StringWriter :=
  ⟨w.contents ++ leBytes 8 (toUnsigned 64 v)⟩

/-- The integer widths for which `StringWriter` declares `put_*`
accessors, transcribed from the accessor list at src/src/Strings.hh
677-713: 8, 16, 32 and 64 bits (there are no `put_u24*`, `put_s24*`,
`put_u48*` or `put_s48*` members). -/
def StringWriter.hasPutOfWidth : Nat → Bool :=
  fun w => w == 8 || w == 16 || w == 32 || w == 64

/-- `BufferWriter` (src/src/Strings.hh:773-885): a fixed-capacity
caller-owned buffer (`buf`, with `buf_size = buf.length`) and a cursor
`offset`. -/
structure BufferWriter where
  buf : List Nat
  offset : Nat
deriving DecidableEq, Repr

/-- `BufferWriter::pwrite(offset, data, size)` (src/src/Strings.hh:778-783):
throws when `offset + size > buf_size` (`size_t` sum, modulo `2 ^ 64`),
otherwise `memcpy(buf + offset, data, size)`. -/
def BufferWriter.pwrite (w : BufferWriter) (offset : Nat) (bs : List Nat) :
    Option BufferWriter :=
  if add64 offset bs.length > w.buf.length then none
  else some ⟨storeBytes w.buf offset bs, w.offset⟩

/-- `BufferWriter::write(data, size)` (src/src/Strings.hh:788-791):
`pwrite(this->offset, data, size)` then `offset += size`; the exception
propagates before the cursor update. -/
def BufferWriter.write (w : BufferWriter) (bs : List Nat) : Option BufferWriter :=
  (w.pwrite w.offset bs).map fun w' => ⟨w'.buf, add64 w'.offset bs.length⟩

/-! ## strip_multiline_comments -/

/-- The scanning loop of `strip_multiline_comments`
(src/src/Strings.hh:90-113), as a pure function: the in-place compaction
writes only at positions the scan has already passed, so it is equivalent
to producing the output afresh.  Returns the final `is_in_comment` flag
and the compacted string (the value `s` holds after the loop and the
`resize`, whether or not the strict-mode exception is then thrown).
Outside a comment, `/` followed by `*` opens a comment and both characters
are dropped; any other character is copied.  Inside a comment, `*`
followed by `/` closes it and both characters are dropped; any other
character is dropped except a newline, which is copied. -/
def stripRun : Bool → List Char → Bool × List Char
  | false, '/' :: '*' :: rest => stripRun true rest
  | false, c :: rest =>
    let p := stripRun false rest
    (p.1, c :: p.2)
  | true, '*' :: '/' :: rest => stripRun false rest
  | true, c :: rest =>
    let p := stripRun true rest
    (p.1, if c = '\n' then '\n' :: p.2 else p.2)
  | ic, [] => (ic, [])

/-- `strip_multiline_comments(s, allow_unterminated)`
(src/src/Strings.hh:90-118): runs the scan, then throws
`std::runtime_error("unterminated multiline comment")` when strict mode is
requested and the scan ended inside a comment. -/
def strip_multiline_comments (s : List Char) (allow_unterminated : Bool) :
    Option (List Char) :=
  let p := stripRun false s
  if !allow_unterminated && p.1 then none else some p.2

/-- The claim's side condition, defined from the spec's words alone: the
input "ends inside an unterminated `/*` comment" when scanning it for
`/*` ... `*/` comment delimiters leaves the scanner inside a comment at
the end of the input. -/
def endsInComment : Bool → List Char → Bool
  | false, '/' :: '*' :: rest => endsInComment true rest
  | false, _ :: rest => endsInComment false rest
  | true, '*' :: '/' :: rest => endsInComment false rest
  | true, _ :: rest => endsInComment true rest
  | ic, [] => ic

/-- The "text outside comments", defined from the spec's words alone: the
characters not inside a `/*` ... `*/` comment and not part of a comment
delimiter, in order.  (Unlike the code's output, this drops newlines that
sit inside comments.) -/
def outsideText : Bool → List Char → List Char
  | false, '/' :: '*' :: rest => outsideText true rest
  | false, c :: rest => c :: outsideText false rest
  | true, '*' :: '/' :: rest => outsideText false rest
  | true, _ :: rest => outsideText true rest
  | _, [] => []

/-! ## Arithmetic and list lemmas -/

theorem add64_le (a b : Nat) : add64 a b ≤ a + b := Nat.mod_le _ _

theorem add64_eq (a b : Nat) (h : a + b < 2 ^ 64) : add64 a b = a + b :=
  Nat.mod_eq_of_lt h

/-- A shifted value or-ed with a value below the shift amount is their sum:
disjoint bit ranges. -/
theorem lor_shl_eq (a b n : Nat) (hb : b < 2 ^ n) : a <<< n ||| b = a * 2 ^ n + b := by
  apply Nat.eq_of_testBit_eq
  intro i
  rw [Nat.testBit_lor, Nat.testBit_shiftLeft]
  rcases lt_or_ge i n with h | h
  · have hd : decide (i ≥ n) = false := decide_eq_false (by omega)
    rw [hd]
    simp only [Bool.false_and, Bool.false_or]
    have h2 : a * 2 ^ n = a * 2 ^ (n - i - 1) * 2 * 2 ^ i := by
      rw [mul_assoc, mul_assoc, ← pow_succ', ← pow_add]
      congr 2
      omega
    have h3 : (a * 2 ^ n + b) / 2 ^ i = b / 2 ^ i + a * 2 ^ (n - i - 1) * 2 := by
      rw [h2, Nat.add_comm (a * 2 ^ (n - i - 1) * 2 * 2 ^ i) b,
        Nat.add_mul_div_right _ _ (Nat.pos_pow_of_pos i (by norm_num))]
    rw [Nat.testBit_to_div_mod, Nat.testBit_to_div_mod, h3]
    have hm : (b / 2 ^ i + a * 2 ^ (n - i - 1) * 2) % 2 = b / 2 ^ i % 2 := by omega
    rw [hm]
  · have hbi : b.testBit i = false :=
      Nat.testBit_lt_two_pow (lt_of_lt_of_le hb (Nat.pow_le_pow_right (by norm_num) h))
    have hd : decide (i ≥ n) = true := decide_eq_true h
    rw [hd, hbi]
    simp only [Bool.true_and, Bool.or_false]
    have h2 : (2 : Nat) ^ i = 2 ^ n * 2 ^ (i - n) := by
      rw [← pow_add]
      congr 1
      omega
    have h3 : (a * 2 ^ n + b) / 2 ^ i = a / 2 ^ (i - n) := by
      rw [h2, ← Nat.div_div_eq_div_mul, Nat.add_comm,
        Nat.add_mul_div_right _ _ (Nat.pos_pow_of_pos n (by norm_num)),
        Nat.div_eq_of_lt hb]
      simp
    rw [Nat.testBit_to_div_mod, Nat.testBit_to_div_mod, h3]

/-- The three-byte big-endian assembly expression as a weighted sum. -/
theorem or3_eq (a b d : Nat) (hb : b < 2 ^ 8) (hd : d < 2 ^ 8) :
    a <<< 16 ||| b <<< 8 ||| d = a * 2 ^ 16 + b * 2 ^ 8 + d := by
  rw [Nat.lor_assoc, lor_shl_eq b d 8 hd, lor_shl_eq a _ 16 (by omega)]
  ring

theorem storeBytes_length (bs : List Nat) : ∀ (l : List Nat) (o : Nat),
    (storeBytes l o bs).length = l.length := by
  induction bs with
  | nil => intro l o; rfl
  | cons b bs ih => intro l o; rw [storeBytes, ih, List.length_set]

theorem storeBytes_get_low (bs : List Nat) : ∀ (l : List Nat) (o i : Nat), i < o →
    (storeBytes l o bs)[i]? = l[i]? := by
  induction bs with
  | nil => intro l o i _; rfl
  | cons b bs ih =>
    intro l o i h
    rw [storeBytes, ih _ _ _ (by omega), List.getElem?_set_ne (by omega)]

theorem storeBytes_get_high (bs : List Nat) : ∀ (l : List Nat) (o i : Nat),
    o + bs.length ≤ i → (storeBytes l o bs)[i]? = l[i]? := by
  induction bs with
  | nil => intro l o i _; rfl
  | cons b bs ih =>
    intro l o i h
    rw [List.length_cons] at h
    rw [storeBytes, ih _ _ _ (by omega), List.getElem?_set_ne (by omega)]

theorem storeBytes_get_mid (bs : List Nat) : ∀ (l : List Nat) (o i : Nat),
    i < bs.length → o + bs.length ≤ l.length →
    (storeBytes l o bs)[o + i]? = bs[i]? := by
  induction bs with
  | nil => intro l o i h _; simp at h
  | cons b bs ih =>
    intro l o i h hc
    rw [List.length_cons] at h hc
    rw [storeBytes]
    match i with
    | 0 =>
      rw [storeBytes_get_low _ _ _ _ (by omega)]
      simp only [Nat.add_zero]
      rw [List.getElem?_set_self (by omega), List.getElem?_cons_zero]
    | i + 1 =>
      have hmid := ih (l.set o b) (o + 1) i (by omega) (by rw [List.length_set]; omega)
      rw [show o + (i + 1) = o + 1 + i by omega, hmid, List.getElem?_cons_succ]

theorem beDecode_aux (n v : Nat) : ∀ a,
    (beBytes n v).foldl (fun acc b => acc * 256 + b) a = a * 2 ^ (8 * n) + v % 2 ^ (8 * n) := by
  induction n with
  | zero => intro a; simp [beBytes, Nat.mod_one]
  | succ n ih =>
    intro a
    rw [beBytes, List.foldl_cons, ih]
    have h1 : (2 : Nat) ^ (8 * (n + 1)) = 2 ^ (8 * n) * 256 := by
      rw [show 8 * (n + 1) = 8 * n + 8 by ring, pow_add]
      norm_num
    have h2 : v % 2 ^ (8 * (n + 1)) = v % 2 ^ (8 * n) + 2 ^ (8 * n) * (v / 2 ^ (8 * n) % 256) := by
      rw [h1]
      exact Nat.mod_mul
    rw [Nat.shiftRight_eq_div_pow, h2, h1]
    ring

theorem beDecode_beBytes (n v : Nat) (h : v < 2 ^ (8 * n)) : beDecode (beBytes n v) = v := by
  rw [beDecode, beDecode_aux, Nat.zero_mul, Nat.zero_add, Nat.mod_eq_of_lt h]

theorem leDecode_leBytes (n v : Nat) : leDecode (leBytes n v) = v % 2 ^ (8 * n) := by
  induction n generalizing v with
  | zero => simp [leBytes, leDecode, Nat.mod_one]
  | succ n ih =>
    rw [leBytes, leDecode, List.foldr_cons]
    have h1 : (2 : Nat) ^ (8 * (n + 1)) = 256 * 2 ^ (8 * n) := by
      rw [show 8 * (n + 1) = 8 + 8 * n by ring, pow_add]
      norm_num
    have h2 : v % 2 ^ (8 * (n + 1)) = v % 256 + 256 * (v / 256 % 2 ^ (8 * n)) := by
      rw [h1]
      exact Nat.mod_mul
    show v % 256 + leDecode (leBytes n (v >>> 8)) * 256 = _
    rw [ih, h2, Nat.shiftRight_eq_div_pow]
    norm_num
    ring

theorem leDecode_leBytes_eq (n v : Nat) (h : v < 2 ^ (8 * n)) : leDecode (leBytes n v) = v := by
  rw [leDecode_leBytes, Nat.mod_eq_of_lt h]

theorem beBytes_length (n v : Nat) : (beBytes n v).length = n := by
  induction n generalizing v with
  | zero => rfl
  | succ n ih => rw [beBytes, List.length_cons, ih]

theorem leBytes_length (n v : Nat) : (leBytes n v).length = n := by
  induction n generalizing v with
  | zero => rfl
  | succ n ih => rw [leBytes, List.length_cons, ih]

theorem beBytes_lt (n v : Nat) : ∀ b ∈ beBytes n v, b < 256 := by
  induction n generalizing v with
  | zero => intro b hb; simp [beBytes] at hb
  | succ n ih =>
    intro b hb
    rw [beBytes, List.mem_cons] at hb
    rcases hb with hb | hb
    · subst hb; exact Nat.mod_lt _ (by norm_num)
    · exact ih v b hb

theorem leBytes_lt (n v : Nat) : ∀ b ∈ leBytes n v, b < 256 := by
  induction n generalizing v with
  | zero => intro b hb; simp [leBytes] at hb
  | succ n ih =>
    intro b hb
    rw [leBytes, List.mem_cons] at hb
    rcases hb with hb | hb
    · subst hb; exact Nat.mod_lt _ (by norm_num)
    · exact ih (v >>> 8) b hb

theorem toUnsigned_lt (w : Nat) (v : Int) : toUnsigned w v < 2 ^ w := by
  have hp : (0 : Int) < 2 ^ w := by positivity
  have h1 := Int.emod_nonneg v (ne_of_gt hp)
  have h2 := Int.emod_lt_of_pos v hp
  rw [toUnsigned, ← Nat.cast_lt (α := Int), Int.toNat_of_nonneg h1]
  push_cast
  exact h2

theorem toUnsigned_cast (w : Nat) (v : Int) : ((toUnsigned w v : Nat) : Int) = v % 2 ^ w := by
  have hp : (0 : Int) < 2 ^ w := by positivity
  exact Int.toNat_of_nonneg (Int.emod_nonneg v (ne_of_gt hp))

/-- Sign extension inverts the two's-complement encoding on the
representable range. -/
theorem sExt_toUnsigned (w : Nat) (hw : 0 < w) (v : Int)
    (h1 : -(2 ^ (w - 1)) ≤ v) (h2 : v < 2 ^ (w - 1)) :
    sExt w (toUnsigned w v) = v := by
  have hsplit : (2 : Int) ^ w = 2 ^ (w - 1) * 2 := by
    rw [← pow_succ]
    congr 1
    omega
  have hp : (0 : Int) < 2 ^ (w - 1) := by positivity
  rcases le_or_lt 0 v with hv | hv
  · have hmod : v % 2 ^ w = v := Int.emod_eq_of_lt hv (by nlinarith)
    have hub : toUnsigned w v < 2 ^ (w - 1) := by
      rw [← Nat.cast_lt (α := Int), toUnsigned_cast, hmod]
      push_cast
      exact h2
    rw [sExt, if_pos hub, toUnsigned_cast, hmod]
  · have hge0 : 0 ≤ v + 2 ^ w := by nlinarith
    have hlt : v + 2 ^ w < 2 ^ w := by linarith
    have hmod : v % 2 ^ w = v + 2 ^ w := by
      have hself := Int.add_mul_emod_self_left (a := v) (b := 2 ^ w) (c := 1)
      rw [mul_one] at hself
      rw [← hself]
      exact Int.emod_eq_of_lt hge0 hlt
    have hub : ¬ (toUnsigned w v < 2 ^ (w - 1)) := by
      rw [← Nat.cast_lt (α := Int), toUnsigned_cast, hmod]
      push_cast
      nlinarith
    rw [sExt, if_neg hub, toUnsigned_cast, hmod]
    ring

/-- The two's-complement value `sExt w u` is the unique integer in
`[-2^(w-1), 2^(w-1))` congruent to `u` modulo `2 ^ w`. -/
theorem sExt_range_congr (w : Nat) (hw : 0 < w) (u : Nat) (hu : u < 2 ^ w) :
    -(2 ^ (w - 1) : Int) ≤ sExt w u ∧ sExt w u < 2 ^ (w - 1) ∧
      sExt w u % (2 : Int) ^ w = (u : Int) := by
  have hsplit : (2 : Int) ^ w = 2 ^ (w - 1) * 2 := by
    rw [← pow_succ]
    congr 1
    omega
  have hp : (0 : Int) < 2 ^ (w - 1) := by positivity
  have hui : (u : Int) < 2 ^ w := by exact_mod_cast hu
  have h0 : (0 : Int) ≤ (u : Int) := Int.natCast_nonneg u
  rw [sExt]
  split
  · next h =>
    have hcast : (u : Int) < 2 ^ (w - 1) := by exact_mod_cast h
    refine ⟨by linarith, hcast, ?_⟩
    exact Int.emod_eq_of_lt h0 hui
  · next h =>
    have hcast : (2 : Int) ^ (w - 1) ≤ (u : Int) := by exact_mod_cast Nat.le_of_not_lt h
    refine ⟨by linarith, by linarith, ?_⟩
    have hself := Int.add_mul_emod_self_left (a := (u : Int) - 2 ^ w) (b := 2 ^ w) (c := 1)
    rw [mul_one, sub_add_cancel] at hself
    rw [← hself]
    exact Int.emod_eq_of_lt h0 hui

theorem stripRun_fst (ic : Bool) (cs : List Char) :
    (stripRun ic cs).1 = endsInComment ic cs := by
  induction ic, cs using stripRun.induct <;>
    simp_all [stripRun, endsInComment]

theorem stripRun_cons_out (c : Char) (rest : List Char)
    (h : ∀ rest1, c = '/' → rest = '*' :: rest1 → False) :
    (stripRun false (c :: rest)).2 = c :: (stripRun false rest).2 := by
  simp_all [stripRun]

theorem stripRun_cons_in (c : Char) (rest : List Char)
    (h : ∀ rest1, c = '*' → rest = '/' :: rest1 → False) :
    (stripRun true (c :: rest)).2 =
      if c = '\n' then '\n' :: (stripRun true rest).2 else (stripRun true rest).2 := by
  simp_all [stripRun]

theorem stripRun_sublist (ic : Bool) (cs : List Char) :
    (stripRun ic cs).2.Sublist cs := by
  induction ic, cs using stripRun.induct with
  | case1 rest ih => exact (ih.cons _).cons _
  | case2 c rest h ih =>
    rw [stripRun_cons_out c rest (by intro r hc hr; exact h r hc hr)]
    exact ih.cons₂ _
  | case3 rest ih => exact (ih.cons _).cons _
  | case4 c rest h ih =>
    rw [stripRun_cons_in c rest (by intro r hc hr; exact h r hc hr)]
    split
    · next hc => subst hc; exact ih.cons₂ _
    · exact ih.cons _
  | case5 ic => simp [stripRun]

theorem outsideText_sublist_stripRun (ic : Bool) (cs : List Char) :
    (outsideText ic cs).Sublist (stripRun ic cs).2 := by
  induction ic, cs using stripRun.induct with
  | case1 rest ih => exact ih
  | case2 c rest h ih =>
    rw [stripRun_cons_out c rest (by intro r hc hr; exact h r hc hr)]
    have ho : outsideText false (c :: rest) = c :: outsideText false rest := by
      simp_all [outsideText]
    rw [ho]
    exact ih.cons₂ _
  | case3 rest ih => exact ih
  | case4 c rest h ih =>
    rw [stripRun_cons_in c rest (by intro r hc hr; exact h r hc hr)]
    have ho : outsideText true (c :: rest) = outsideText true rest := by
      simp_all [outsideText]
    rw [ho]
    split
    · exact ih.cons _
    · exact ih
  | case5 ic => simp [stripRun, outsideText]

theorem stripRun_filter (ic : Bool) (cs : List Char) :
    (stripRun ic cs).2.filter (fun c => c != '\n') =
      (outsideText ic cs).filter (fun c => c != '\n') := by
  induction ic, cs using stripRun.induct with
  | case1 rest ih => exact ih
  | case2 c rest h ih =>
    rw [stripRun_cons_out c rest (by intro r hc hr; exact h r hc hr)]
    have ho : outsideText false (c :: rest) = c :: outsideText false rest := by
      simp_all [outsideText]
    rw [ho, List.filter_cons, List.filter_cons, ih]
  | case3 rest ih => exact ih
  | case4 c rest h ih =>
    rw [stripRun_cons_in c rest (by intro r hc hr; exact h r hc hr)]
    have ho : outsideText true (c :: rest) = outsideText true rest := by
      simp_all [outsideText]
    rw [ho]
    split
    · simpa using ih
    · exact ih
  | case5 ic => simp [stripRun, outsideText]

theorem pgetv_of_le (r : StringReader) (offset size : Nat) (h : offset + size ≤ r.data.length) :
    r.pgetv offset size = some ((r.data.drop offset).take size) := by
  rw [StringReader.pgetv, if_neg (not_lt.2 (le_trans (add64_le _ _) h))]

theorem getD_lt_of_wf (l : List Nat) (hwf : ∀ b ∈ l, b < 256) (i : Nat) (h : i < l.length) :
    l.getD i 0 < 256 := by
  rw [List.getD_eq_getElem?_getD, List.getElem?_eq_getElem h]
  exact hwf _ (List.getElem_mem h)

theorem getD_append_at (l bs : List Nat) (i : Nat) :
    (l ++ bs).getD (l.length + i) 0 = bs.getD i 0 := by
  rw [List.getD_eq_getElem?_getD, List.getD_eq_getElem?_getD,
    List.getElem?_append_right (by omega), Nat.add_sub_cancel_left]

/-- Little-endian three-byte assembly as a weighted sum. -/
theorem or3l_eq (a b d : Nat) (ha : a < 2 ^ 8) (hb : b < 2 ^ 8) :
    a ||| b <<< 8 ||| d <<< 16 = a + b * 2 ^ 8 + d * 2 ^ 16 := by
  rw [Nat.lor_comm a (b <<< 8), lor_shl_eq b a 8 ha,
    Nat.lor_comm (b * 2 ^ 8 + a) (d <<< 16), lor_shl_eq d (b * 2 ^ 8 + a) 16 (by omega)]
  ring

/-- Big-endian six-byte assembly as a weighted sum. -/
theorem or6_eq (a b d e f g : Nat) (hb : b < 2 ^ 8) (hd : d < 2 ^ 8) (he : e < 2 ^ 8)
    (hf : f < 2 ^ 8) (hg : g < 2 ^ 8) :
    a <<< 40 ||| b <<< 32 ||| d <<< 24 ||| e <<< 16 ||| f <<< 8 ||| g =
      a * 2 ^ 40 + b * 2 ^ 32 + d * 2 ^ 24 + e * 2 ^ 16 + f * 2 ^ 8 + g := by
  simp only [Nat.lor_assoc]
  rw [lor_shl_eq f g 8 hg,
    lor_shl_eq e (f * 2 ^ 8 + g) 16 (by omega),
    lor_shl_eq d (e * 2 ^ 16 + (f * 2 ^ 8 + g)) 24 (by omega),
    lor_shl_eq b (d * 2 ^ 24 + (e * 2 ^ 16 + (f * 2 ^ 8 + g))) 32 (by omega),
    lor_shl_eq a (b * 2 ^ 32 + (d * 2 ^ 24 + (e * 2 ^ 16 + (f * 2 ^ 8 + g)))) 40 (by omega)]
  ring

/-- Little-endian six-byte assembly as a weighted sum. -/
theorem or6l_eq (a b d e f g : Nat) (ha : a < 2 ^ 8) (hb : b < 2 ^ 8) (hd : d < 2 ^ 8)
    (he : e < 2 ^ 8) (hf : f < 2 ^ 8) :
    a ||| b <<< 8 ||| d <<< 16 ||| e <<< 24 ||| f <<< 32 ||| g <<< 40 =
      a + b * 2 ^ 8 + d * 2 ^ 16 + e * 2 ^ 24 + f * 2 ^ 32 + g * 2 ^ 40 := by
  rw [Nat.lor_comm a (b <<< 8), lor_shl_eq b a 8 ha,
    Nat.lor_comm (b * 2 ^ 8 + a) (d <<< 16),
    lor_shl_eq d (b * 2 ^ 8 + a) 16 (by omega),
    Nat.lor_comm (d * 2 ^ 16 + (b * 2 ^ 8 + a)) (e <<< 24),
    lor_shl_eq e (d * 2 ^ 16 + (b * 2 ^ 8 + a)) 24 (by omega),
    Nat.lor_comm (e * 2 ^ 24 + (d * 2 ^ 16 + (b * 2 ^ 8 + a))) (f <<< 32),
    lor_shl_eq f (e * 2 ^ 24 + (d * 2 ^ 16 + (b * 2 ^ 8 + a))) 32 (by omega),
    Nat.lor_comm (f * 2 ^ 32 + (e * 2 ^ 24 + (d * 2 ^ 16 + (b * 2 ^ 8 + a)))) (g <<< 40),
    lor_shl_eq g (f * 2 ^ 32 + (e * 2 ^ 24 + (d * 2 ^ 16 + (b * 2 ^ 8 + a)))) 40 (by omega)]
  ring

/-- `pget_u24b` at an in-bounds offset over well-formed bytes: the
big-endian weighted sum of the three bytes. -/
theorem pget_u24b_eq (r : StringReader) (offset : Nat) (hwf : ∀ b ∈ r.data, b < 256)
    (h : offset + 3 ≤ r.data.length) :
    r.pget_u24b offset = some (r.data.getD offset 0 * 2 ^ 16 +
      r.data.getD (offset + 1) 0 * 2 ^ 8 + r.data.getD (offset + 2) 0) := by
  rw [StringReader.pget_u24b, if_neg (not_lt.2 (le_trans (add64_le _ _) h)),
    or3_eq _ _ _ (getD_lt_of_wf _ hwf _ (by omega)) (getD_lt_of_wf _ hwf _ (by omega))]

theorem pget_u24l_eq (r : StringReader) (offset : Nat) (hwf : ∀ b ∈ r.data, b < 256)
    (h : offset + 3 ≤ r.data.length) :
    r.pget_u24l offset = some (r.data.getD offset 0 +
      r.data.getD (offset + 1) 0 * 2 ^ 8 + r.data.getD (offset + 2) 0 * 2 ^ 16) := by
  rw [StringReader.pget_u24l, if_neg (not_lt.2 (le_trans (add64_le _ _) h)),
    or3l_eq _ _ _ (getD_lt_of_wf _ hwf _ (by omega)) (getD_lt_of_wf _ hwf _ (by omega))]

theorem pget_u48b_eq (r : StringReader) (offset : Nat) (hwf : ∀ b ∈ r.data, b < 256)
    (h : offset + 6 ≤ r.data.length) :
    r.pget_u48b offset = some (r.data.getD offset 0 * 2 ^ 40 +
      r.data.getD (offset + 1) 0 * 2 ^ 32 + r.data.getD (offset + 2) 0 * 2 ^ 24 +
      r.data.getD (offset + 3) 0 * 2 ^ 16 + r.data.getD (offset + 4) 0 * 2 ^ 8 +
      r.data.getD (offset + 5) 0) := by
  rw [StringReader.pget_u48b, if_neg (not_lt.2 (le_trans (add64_le _ _) h)),
    or6_eq _ _ _ _ _ _ (getD_lt_of_wf _ hwf _ (by omega)) (getD_lt_of_wf _ hwf _ (by omega))
      (getD_lt_of_wf _ hwf _ (by omega)) (getD_lt_of_wf _ hwf _ (by omega))
      (getD_lt_of_wf _ hwf _ (by omega))]

theorem pget_u48l_eq (r : StringReader) (offset : Nat) (hwf : ∀ b ∈ r.data, b < 256)
    (h : offset + 6 ≤ r.data.length) :
    r.pget_u48l offset = some (r.data.getD offset 0 +
      r.data.getD (offset + 1) 0 * 2 ^ 8 + r.data.getD (offset + 2) 0 * 2 ^ 16 +
      r.data.getD (offset + 3) 0 * 2 ^ 24 + r.data.getD (offset + 4) 0 * 2 ^ 32 +
      r.data.getD (offset + 5) 0 * 2 ^ 40) := by
  rw [StringReader.pget_u48l, if_neg (not_lt.2 (le_trans (add64_le _ _) h)),
    or6l_eq _ _ _ _ _ _ (getD_lt_of_wf _ hwf _ (by omega)) (getD_lt_of_wf _ hwf _ (by omega))
      (getD_lt_of_wf _ hwf _ (by omega)) (getD_lt_of_wf _ hwf _ (by omega))
      (getD_lt_of_wf _ hwf _ (by omega))]

theorem stripRun_count (ic : Bool) (cs : List Char) :
    (stripRun ic cs).2.count '\n' = cs.count '\n' := by
  induction ic, cs using stripRun.induct with
  | case1 rest ih => simpa [List.count_cons] using ih
  | case2 c rest h ih =>
    rw [stripRun_cons_out c rest (by intro r hc hr; exact h r hc hr)]
    simp [List.count_cons, ih]
  | case3 rest ih => simpa [List.count_cons] using ih
  | case4 c rest h ih =>
    rw [stripRun_cons_in c rest (by intro r hc hr; exact h r hc hr)]
    split
    · next hc => subst hc; simp [List.count_cons, ih]
    · next hc => simp [List.count_cons, ih, hc]
  | case5 ic => simp [stripRun]

theorem getv_append (l bytes : List Nat) (adv : Bool) :
    ((StringReader.mk (l ++ bytes) l.length).getv bytes.length adv).1 = some bytes := by
  have hp : (StringReader.mk (l ++ bytes) l.length).pgetv l.length bytes.length
      = some bytes := by
    rw [pgetv_of_le _ _ _ (le_of_eq (List.length_append l bytes).symm)]
    dsimp only
    rw [List.drop_left, List.take_length]
  simp only [StringReader.getv, hp]

theorem get_be_append (l : List Nat) (n v : Nat) (adv : Bool) (hv : v < 2 ^ (8 * n)) :
    (((StringReader.mk (l ++ beBytes n v) l.length).getv n adv).1).map beDecode = some v := by
  have hg := getv_append l (beBytes n v) adv
  rw [beBytes_length] at hg
  rw [hg, Option.map_some', beDecode_beBytes n v hv]

theorem get_le_append (l : List Nat) (n v : Nat) (adv : Bool) (hv : v < 2 ^ (8 * n)) :
    (((StringReader.mk (l ++ leBytes n v) l.length).getv n adv).1).map leDecode = some v := by
  have hg := getv_append l (leBytes n v) adv
  rw [leBytes_length] at hg
  rw [hg, Option.map_some', leDecode_leBytes_eq n v hv]

theorem get_be_s_append (l : List Nat) (n : Nat) (v : Int) (adv : Bool) (hn : 0 < n)
    (hl : -(2 ^ (8 * n - 1)) ≤ v) (hh : v < 2 ^ (8 * n - 1)) :
    (((StringReader.mk (l ++ beBytes n (toUnsigned (8 * n) v)) l.length).getv n adv).1).map
      (fun bs => sExt (8 * n) (beDecode bs)) = some v := by
  have hg := getv_append l (beBytes n (toUnsigned (8 * n) v)) adv
  rw [beBytes_length] at hg
  rw [hg, Option.map_some', beDecode_beBytes _ _ (toUnsigned_lt _ _),
    sExt_toUnsigned _ (by omega) v hl hh]

theorem get_le_s_append (l : List Nat) (n : Nat) (v : Int) (adv : Bool) (hn : 0 < n)
    (hl : -(2 ^ (8 * n - 1)) ≤ v) (hh : v < 2 ^ (8 * n - 1)) :
    (((StringReader.mk (l ++ leBytes n (toUnsigned (8 * n) v)) l.length).getv n adv).1).map
      (fun bs => sExt (8 * n) (leDecode bs)) = some v := by
  have hg := getv_append l (leBytes n (toUnsigned (8 * n) v)) adv
  rw [leBytes_length] at hg
  rw [hg, Option.map_some', leDecode_leBytes_eq _ _ (toUnsigned_lt _ _),
    sExt_toUnsigned _ (by omega) v hl hh]

theorem get_u24b_fst (r : StringReader) (adv : Bool) :
    (r.get_u24b adv).1 = r.pget_u24b r.offset := by
  cases hp : r.pget_u24b r.offset <;> simp [StringReader.get_u24b, hp]

theorem get_u24l_fst (r : StringReader) (adv : Bool) :
    (r.get_u24l adv).1 = r.pget_u24l r.offset := by
  cases hp : r.pget_u24l r.offset <;> simp [StringReader.get_u24l, hp]

theorem get_s24b_fst (r : StringReader) (adv : Bool) :
    (r.get_s24b adv).1 = r.pget_s24b r.offset := by
  cases hp : r.pget_u24b r.offset <;>
    simp [StringReader.get_s24b, StringReader.get_u24b, StringReader.pget_s24b, hp]

theorem get_s24l_fst (r : StringReader) (adv : Bool) :
    (r.get_s24l adv).1 = r.pget_s24l r.offset := by
  cases hp : r.pget_u24l r.offset <;>
    simp [StringReader.get_s24l, StringReader.get_u24l, StringReader.pget_s24l, hp]

theorem get_u48b_fst (r : StringReader) (adv : Bool) :
    (r.get_u48b adv).1 = r.pget_u48b r.offset := by
  cases hp : r.pget_u48b r.offset <;> simp [StringReader.get_u48b, hp]

theorem get_u48l_fst (r : StringReader) (adv : Bool) :
    (r.get_u48l adv).1 = r.pget_u48l r.offset := by
  cases hp : r.pget_u48l r.offset <;> simp [StringReader.get_u48l, hp]

theorem get_s48b_fst (r : StringReader) (adv : Bool) :
    (r.get_s48b adv).1 = r.pget_s48b r.offset := by
  cases hp : r.pget_u48b r.offset <;>
    simp [StringReader.get_s48b, StringReader.get_u48b, StringReader.pget_s48b, hp]

theorem get_s48l_fst (r : StringReader) (adv : Bool) :
    (r.get_s48l adv).1 = r.pget_s48l r.offset := by
  cases hp : r.pget_u48l r.offset <;>
    simp [StringReader.get_s48l, StringReader.get_u48l, StringReader.pget_s48l, hp]

theorem pget_u24b_append (l bs : List Nat) (off : Nat) (h3 : bs.length = 3)
    (hwf : ∀ b ∈ bs, b < 256) :
    (StringReader.mk (l ++ bs) off).pget_u24b l.length = some (beDecode bs) := by
  match bs, h3 with
  | [b0, b1, b2], _ =>
    have h1 : b1 < 256 := hwf _ (by simp)
    have h2 : b2 < 256 := hwf _ (by simp)
    rw [StringReader.pget_u24b]
    dsimp only
    rw [if_neg (by
      rw [List.length_append]
      exact not_lt.2 (le_trans (add64_le _ _) (by simp)))]
    have e0 := getD_append_at l [b0, b1, b2] 0
    have e1 := getD_append_at l [b0, b1, b2] 1
    have e2 := getD_append_at l [b0, b1, b2] 2
    rw [Nat.add_zero] at e0
    simp only [List.getD_cons_zero, List.getD_cons_succ] at e0 e1 e2
    rw [e0, e1, e2, or3_eq b0 b1 b2 h1 h2]
    have hd : beDecode [b0, b1, b2] = b0 * 2 ^ 16 + b1 * 2 ^ 8 + b2 := by
      unfold beDecode
      simp only [List.foldl_cons, List.foldl_nil]
      ring
    rw [hd]

theorem pget_u24l_append (l bs : List Nat) (off : Nat) (h3 : bs.length = 3)
    (hwf : ∀ b ∈ bs, b < 256) :
    (StringReader.mk (l ++ bs) off).pget_u24l l.length = some (leDecode bs) := by
  match bs, h3 with
  | [b0, b1, b2], _ =>
    have h0 : b0 < 256 := hwf _ (by simp)
    have h1 : b1 < 256 := hwf _ (by simp)
    rw [StringReader.pget_u24l]
    dsimp only
    rw [if_neg (by
      rw [List.length_append]
      exact not_lt.2 (le_trans (add64_le _ _) (by simp)))]
    have e0 := getD_append_at l [b0, b1, b2] 0
    have e1 := getD_append_at l [b0, b1, b2] 1
    have e2 := getD_append_at l [b0, b1, b2] 2
    rw [Nat.add_zero] at e0
    simp only [List.getD_cons_zero, List.getD_cons_succ] at e0 e1 e2
    rw [e0, e1, e2, or3l_eq b0 b1 b2 h0 h1]
    have hd : leDecode [b0, b1, b2] = b0 + b1 * 2 ^ 8 + b2 * 2 ^ 16 := by
      unfold leDecode
      simp only [List.foldr_cons, List.foldr_nil]
      ring
    rw [hd]

theorem pget_u48b_append (l bs : List Nat) (off : Nat) (h6 : bs.length = 6)
    (hwf : ∀ b ∈ bs, b < 256) :
    (StringReader.mk (l ++ bs) off).pget_u48b l.length = some (beDecode bs) := by
  match bs, h6 with
  | [b0, b1, b2, b3, b4, b5], _ =>
    have h1 : b1 < 256 := hwf _ (by simp)
    have h2 : b2 < 256 := hwf _ (by simp)
    have h3 : b3 < 256 := hwf _ (by simp)
    have h4 : b4 < 256 := hwf _ (by simp)
    have h5 : b5 < 256 := hwf _ (by simp)
    rw [StringReader.pget_u48b]
    dsimp only
    rw [if_neg (by
      rw [List.length_append]
      exact not_lt.2 (le_trans (add64_le _ _) (by simp)))]
    have e0 := getD_append_at l [b0, b1, b2, b3, b4, b5] 0
    have e1 := getD_append_at l [b0, b1, b2, b3, b4, b5] 1
    have e2 := getD_append_at l [b0, b1, b2, b3, b4, b5] 2
    have e3 := getD_append_at l [b0, b1, b2, b3, b4, b5] 3
    have e4 := getD_append_at l [b0, b1, b2, b3, b4, b5] 4
    have e5 := getD_append_at l [b0, b1, b2, b3, b4, b5] 5
    rw [Nat.add_zero] at e0
    simp only [List.getD_cons_zero, List.getD_cons_succ] at e0 e1 e2 e3 e4 e5
    rw [e0, e1, e2, e3, e4, e5, or6_eq b0 b1 b2 b3 b4 b5 h1 h2 h3 h4 h5]
    have hd : beDecode [b0, b1, b2, b3, b4, b5] = b0 * 2 ^ 40 + b1 * 2 ^ 32 +
        b2 * 2 ^ 24 + b3 * 2 ^ 16 + b4 * 2 ^ 8 + b5 := by
      unfold beDecode
      simp only [List.foldl_cons, List.foldl_nil]
      ring
    rw [hd]

theorem pget_u48l_append (l bs : List Nat) (off : Nat) (h6 : bs.length = 6)
    (hwf : ∀ b ∈ bs, b < 256) :
    (StringReader.mk (l ++ bs) off).pget_u48l l.length = some (leDecode bs) := by
  match bs, h6 with
  | [b0, b1, b2, b3, b4, b5], _ =>
    have h0 : b0 < 256 := hwf _ (by simp)
    have h1 : b1 < 256 := hwf _ (by simp)
    have h2 : b2 < 256 := hwf _ (by simp)
    have h3 : b3 < 256 := hwf _ (by simp)
    have h4 : b4 < 256 := hwf _ (by simp)
    rw [StringReader.pget_u48l]
    dsimp only
    rw [if_neg (by
      rw [List.length_append]
      exact not_lt.2 (le_trans (add64_le _ _) (by simp)))]
    have e0 := getD_append_at l [b0, b1, b2, b3, b4, b5] 0
    have e1 := getD_append_at l [b0, b1, b2, b3, b4, b5] 1
    have e2 := getD_append_at l [b0, b1, b2, b3, b4, b5] 2
    have e3 := getD_append_at l [b0, b1, b2, b3, b4, b5] 3
    have e4 := getD_append_at l [b0, b1, b2, b3, b4, b5] 4
    have e5 := getD_append_at l [b0, b1, b2, b3, b4, b5] 5
    rw [Nat.add_zero] at e0
    simp only [List.getD_cons_zero, List.getD_cons_succ] at e0 e1 e2 e3 e4 e5
    rw [e0, e1, e2, e3, e4, e5, or6l_eq b0 b1 b2 b3 b4 b5 h0 h1 h2 h3 h4]
    have hd : leDecode [b0, b1, b2, b3, b4, b5] = b0 + b1 * 2 ^ 8 + b2 * 2 ^ 16 +
        b3 * 2 ^ 24 + b4 * 2 ^ 32 + b5 * 2 ^ 40 := by
      unfold leDecode
      simp only [List.foldr_cons, List.foldr_nil]
      ring
    rw [hd]

/-! ## Claim theorems -/

/-- C1: evaluation of the code at the failing input.  With an empty buffer
(length 0), `pgetv(2^64 - 1, 1)` requests the span `[2^64-1, 2^64)`, which
exceeds the bounds under exact arithmetic (first conjunct), yet the
bounds check computes `(offset + size) mod 2^64 = 0 ≤ 0` and the call does
not raise OutOfRange (second conjunct) — the C++ then reads out of
bounds. -/
theorem c1_pgetv_overflow_no_throw :
    2 ^ 64 - 1 + 1 > (StringReader.mk [] 0).data.length ∧
    (StringReader.mk [] 0).pgetv (2 ^ 64 - 1) 1 = some [] := by
  constructor
  · decide
  · decide

/-- C2: a failed `getv` or typed `get_*` read leaves the reader exactly as
it was: bounds are checked by `pgetv`/`pget_u*` before the cursor update,
so when the result is `none` (the thrown case) the post-state equals the
pre-state, cursor and buffer included. -/
theorem c2_failed_reads_preserve_state (r : StringReader) (size : Nat) (advance : Bool) :
    ((r.getv size advance).1 = none → (r.getv size advance).2 = r) ∧
    ((r.get_u16b advance).1 = none → (r.get_u16b advance).2 = r) ∧
    ((r.get_u24b advance).1 = none → (r.get_u24b advance).2 = r) ∧
    ((r.get_u24l advance).1 = none → (r.get_u24l advance).2 = r) ∧
    ((r.get_s24b advance).1 = none → (r.get_s24b advance).2 = r) ∧
    ((r.get_s24l advance).1 = none → (r.get_s24l advance).2 = r) ∧
    ((r.get_u48b advance).1 = none → (r.get_u48b advance).2 = r) ∧
    ((r.get_u48l advance).1 = none → (r.get_u48l advance).2 = r) ∧
    ((r.get_s48b advance).1 = none → (r.get_s48b advance).2 = r) ∧
    ((r.get_s48l advance).1 = none → (r.get_s48l advance).2 = r) := by
  refine ⟨?_, ?_, ?_, ?_, ?_, ?_, ?_, ?_, ?_, ?_⟩
  · cases hp : r.pgetv r.offset size with
    | none => intro _; simp [StringReader.getv, hp]
    | some bs => intro hn; simp [StringReader.getv, hp] at hn
  · cases hp : r.pgetv r.offset 2 with
    | none => intro _; simp [StringReader.get_u16b, StringReader.getv, hp]
    | some bs => intro hn; simp [StringReader.get_u16b, StringReader.getv, hp] at hn
  · cases hp : r.pget_u24b r.offset with
    | none => intro _; simp [StringReader.get_u24b, hp]
    | some v => intro hn; simp [StringReader.get_u24b, hp] at hn
  · cases hp : r.pget_u24l r.offset with
    | none => intro _; simp [StringReader.get_u24l, hp]
    | some v => intro hn; simp [StringReader.get_u24l, hp] at hn
  · cases hp : r.pget_u24b r.offset with
    | none => intro _; simp [StringReader.get_s24b, StringReader.get_u24b, hp]
    | some v => intro hn; simp [StringReader.get_s24b, StringReader.get_u24b, hp] at hn
  · cases hp : r.pget_u24l r.offset with
    | none => intro _; simp [StringReader.get_s24l, StringReader.get_u24l, hp]
    | some v => intro hn; simp [StringReader.get_s24l, StringReader.get_u24l, hp] at hn
  · cases hp : r.pget_u48b r.offset with
    | none => intro _; simp [StringReader.get_u48b, hp]
    | some v => intro hn; simp [StringReader.get_u48b, hp] at hn
  · cases hp : r.pget_u48l r.offset with
    | none => intro _; simp [StringReader.get_u48l, hp]
    | some v => intro hn; simp [StringReader.get_u48l, hp] at hn
  · cases hp : r.pget_u48b r.offset with
    | none => intro _; simp [StringReader.get_s48b, StringReader.get_u48b, hp]
    | some v => intro hn; simp [StringReader.get_s48b, StringReader.get_u48b, hp] at hn
  · cases hp : r.pget_u48l r.offset with
    | none => intro _; simp [StringReader.get_s48l, StringReader.get_u48l, hp]
    | some v => intro hn; simp [StringReader.get_s48l, StringReader.get_u48l, hp] at hn

/-- C2 witness: a concrete failed read (1 byte from an empty reader)
leaves the reader unchanged. -/
theorem c2_failed_reads_preserve_state_witness :
    ((StringReader.mk [] 0).getv 1 true).1 = none ∧
    ((StringReader.mk [] 0).getv 1 true).2 = StringReader.mk [] 0 :=
  ⟨by decide, (c2_failed_reads_preserve_state (StringReader.mk [] 0) 1 true).1 (by decide)⟩

/-- C5: evaluation of the code at the failing input.  With a
zero-capacity buffer, `pwrite(2^64 - 1, data, 1)` requests a span beyond
`buf_size` (first conjunct), yet the capacity check computes
`(offset + size) mod 2^64 = 0 ≤ 0` and the call does not raise OutOfRange
(second conjunct) — the C++ then `memcpy`s out of bounds. -/
theorem c5_pwrite_overflow_no_throw :
    2 ^ 64 - 1 + 1 > (BufferWriter.mk [] 0).buf.length ∧
    (BufferWriter.mk [] 0).pwrite (2 ^ 64 - 1) [7] = some (BufferWriter.mk [] 0) := by
  constructor
  · decide
  · decide

/-- C7: for in-bounds `(offset, size)`, the positional read `pread` (a
`const` member) returns the requested bytes, leaves the reader — in
particular `where()` — unchanged, and repeating the call returns the same
bytes. -/
theorem c7_pread_idempotent_const (r : StringReader) (offset size : Nat)
    (h : offset + size ≤ r.data.length) :
    (r.pread offset size).1 = some ((r.data.drop offset).take size) ∧
    (r.pread offset size).2 = r ∧
    ((r.pread offset size).2.pread offset size).1 = (r.pread offset size).1 ∧
    ((r.pread offset size).2).offset = r.offset :=
  ⟨pgetv_of_le r offset size h, rfl, rfl, rfl⟩

/-- C7 witness: a concrete in-bounds positional read. -/
theorem c7_pread_witness :
    ((StringReader.mk [1, 2, 3] 0).pread 1 2).1 = some [2, 3] ∧
    ((StringReader.mk [1, 2, 3] 0).pread 1 2).2 = StringReader.mk [1, 2, 3] 0 :=
  ⟨(c7_pread_idempotent_const (StringReader.mk [1, 2, 3] 0) 1 2 (by decide)).1,
    (c7_pread_idempotent_const (StringReader.mk [1, 2, 3] 0) 1 2 (by decide)).2.1⟩

/-- C8 counterexample: on the input `"/*\n"` with `allow_unterminated`,
the unterminated tail is not simply dropped — its newline is kept: there
is no text outside comments (second conjunct), yet the output is `"\n"`,
not the empty string (first conjunct). -/
theorem c8_unterminated_tail_newline :
    strip_multiline_comments ['/', '*', '\n'] true = some ['\n'] ∧
    outsideText false ['/', '*', '\n'] = [] := by
  constructor
  · decide
  · decide

/-- C8 (amended): strict mode fails exactly when the scan ends inside an
unterminated `/*` comment; with `allow_unterminated` the function never
fails and returns the compacted string; the output is a subsequence of the
input, keeps all text outside comments in order, and away from newlines is
exactly the outside-comment text (the unterminated tail contributes only
its newlines). -/
theorem c8_strip_comments_modes (cs : List Char) :
    (strip_multiline_comments cs false = none ↔ endsInComment false cs = true) ∧
    strip_multiline_comments cs true = some (stripRun false cs).2 ∧
    (stripRun false cs).2.Sublist cs ∧
    (outsideText false cs).Sublist (stripRun false cs).2 ∧
    (stripRun false cs).2.filter (fun c => c != '\n') =
      (outsideText false cs).filter (fun c => c != '\n') := by
  refine ⟨?_, ?_, stripRun_sublist false cs, outsideText_sublist_stripRun false cs,
    stripRun_filter false cs⟩
  · rw [← stripRun_fst]
    simp only [strip_multiline_comments, Bool.not_false, Bool.true_and]
    cases (stripRun false cs).1 <;> simp
  · simp [strip_multiline_comments]

/-- C3: the 24- and 48-bit reads assemble their result from the
individual bytes in the order given by the endianness suffix (`b`: most
significant byte first, `l`: least significant byte first), the signed
variants sign-extend to the next native width — the result is the unique
integer in the signed range congruent to the unsigned value modulo the
field width — and the cursor forms `get_*` read the same value as the
positional forms at the cursor. -/
theorem c3_byte_assembly_sign_extension (r : StringReader) (offset : Nat)
    (hwf : ∀ b ∈ r.data, b < 256) :
    (offset + 3 ≤ r.data.length →
      r.pget_u24b offset = some (r.data.getD offset 0 * 2 ^ 16 +
        r.data.getD (offset + 1) 0 * 2 ^ 8 + r.data.getD (offset + 2) 0) ∧
      r.pget_u24l offset = some (r.data.getD offset 0 +
        r.data.getD (offset + 1) 0 * 2 ^ 8 + r.data.getD (offset + 2) 0 * 2 ^ 16) ∧
      (∀ u, r.pget_u24b offset = some u →
        r.pget_s24b offset = some (sExt 24 u) ∧
        -(2 ^ 23 : Int) ≤ sExt 24 u ∧ sExt 24 u < 2 ^ 23 ∧
        sExt 24 u % (2 : Int) ^ 24 = (u : Int)) ∧
      (∀ u, r.pget_u24l offset = some u →
        r.pget_s24l offset = some (sExt 24 u) ∧
        -(2 ^ 23 : Int) ≤ sExt 24 u ∧ sExt 24 u < 2 ^ 23 ∧
        sExt 24 u % (2 : Int) ^ 24 = (u : Int))) ∧
    (offset + 6 ≤ r.data.length →
      r.pget_u48b offset = some (r.data.getD offset 0 * 2 ^ 40 +
        r.data.getD (offset + 1) 0 * 2 ^ 32 + r.data.getD (offset + 2) 0 * 2 ^ 24 +
        r.data.getD (offset + 3) 0 * 2 ^ 16 + r.data.getD (offset + 4) 0 * 2 ^ 8 +
        r.data.getD (offset + 5) 0) ∧
      r.pget_u48l offset = some (r.data.getD offset 0 +
        r.data.getD (offset + 1) 0 * 2 ^ 8 + r.data.getD (offset + 2) 0 * 2 ^ 16 +
        r.data.getD (offset + 3) 0 * 2 ^ 24 + r.data.getD (offset + 4) 0 * 2 ^ 32 +
        r.data.getD (offset + 5) 0 * 2 ^ 40) ∧
      (∀ u, r.pget_u48b offset = some u →
        r.pget_s48b offset = some (sExt 48 u) ∧
        -(2 ^ 47 : Int) ≤ sExt 48 u ∧ sExt 48 u < 2 ^ 47 ∧
        sExt 48 u % (2 : Int) ^ 48 = (u : Int)) ∧
      (∀ u, r.pget_u48l offset = some u →
        r.pget_s48l offset = some (sExt 48 u) ∧
        -(2 ^ 47 : Int) ≤ sExt 48 u ∧ sExt 48 u < 2 ^ 47 ∧
        sExt 48 u % (2 : Int) ^ 48 = (u : Int))) ∧
    (∀ advance,
      (r.get_u24b advance).1 = r.pget_u24b r.offset ∧
      (r.get_u24l advance).1 = r.pget_u24l r.offset ∧
      (r.get_s24b advance).1 = r.pget_s24b r.offset ∧
      (r.get_s24l advance).1 = r.pget_s24l r.offset ∧
      (r.get_u48b advance).1 = r.pget_u48b r.offset ∧
      (r.get_u48l advance).1 = r.pget_u48l r.offset ∧
      (r.get_s48b advance).1 = r.pget_s48b r.offset ∧
      (r.get_s48l advance).1 = r.pget_s48l r.offset) := by
  refine ⟨?_, ?_, ?_⟩
  · intro h3
    have hb0 := getD_lt_of_wf r.data hwf offset (by omega)
    have hb1 := getD_lt_of_wf r.data hwf (offset + 1) (by omega)
    have hb2 := getD_lt_of_wf r.data hwf (offset + 2) (by omega)
    have hu := pget_u24b_eq r offset hwf h3
    have hl := pget_u24l_eq r offset hwf h3
    refine ⟨hu, hl, ?_, ?_⟩
    · intro u husome
      rw [hu] at husome
      injection husome with hueq
      subst hueq
      refine ⟨by rw [StringReader.pget_s24b, hu]; rfl,
        sExt_range_congr 24 (by norm_num) _ (by omega)⟩
    · intro u husome
      rw [hl] at husome
      injection husome with hueq
      subst hueq
      refine ⟨by rw [StringReader.pget_s24l, hl]; rfl,
        sExt_range_congr 24 (by norm_num) _ (by omega)⟩
  · intro h6
    have hb0 := getD_lt_of_wf r.data hwf offset (by omega)
    have hb1 := getD_lt_of_wf r.data hwf (offset + 1) (by omega)
    have hb2 := getD_lt_of_wf r.data hwf (offset + 2) (by omega)
    have hb3 := getD_lt_of_wf r.data hwf (offset + 3) (by omega)
    have hb4 := getD_lt_of_wf r.data hwf (offset + 4) (by omega)
    have hb5 := getD_lt_of_wf r.data hwf (offset + 5) (by omega)
    have hu := pget_u48b_eq r offset hwf h6
    have hl := pget_u48l_eq r offset hwf h6
    refine ⟨hu, hl, ?_, ?_⟩
    · intro u husome
      rw [hu] at husome
      injection husome with hueq
      subst hueq
      refine ⟨by rw [StringReader.pget_s48b, hu]; rfl,
        sExt_range_congr 48 (by norm_num) _ (by omega)⟩
    · intro u husome
      rw [hl] at husome
      injection husome with hueq
      subst hueq
      refine ⟨by rw [StringReader.pget_s48l, hl]; rfl,
        sExt_range_congr 48 (by norm_num) _ (by omega)⟩
  · intro advance
    refine ⟨?_, ?_, ?_, ?_, ?_, ?_, ?_, ?_⟩
    · cases hp : r.pget_u24b r.offset <;> simp [StringReader.get_u24b, hp]
    · cases hp : r.pget_u24l r.offset <;> simp [StringReader.get_u24l, hp]
    · cases hp : r.pget_u24b r.offset <;>
        simp [StringReader.get_s24b, StringReader.get_u24b, StringReader.pget_s24b, hp]
    · cases hp : r.pget_u24l r.offset <;>
        simp [StringReader.get_s24l, StringReader.get_u24l, StringReader.pget_s24l, hp]
    · cases hp : r.pget_u48b r.offset <;> simp [StringReader.get_u48b, hp]
    · cases hp : r.pget_u48l r.offset <;> simp [StringReader.get_u48l, hp]
    · cases hp : r.pget_u48b r.offset <;>
        simp [StringReader.get_s48b, StringReader.get_u48b, StringReader.pget_s48b, hp]
    · cases hp : r.pget_u48l r.offset <;>
        simp [StringReader.get_s48l, StringReader.get_u48l, StringReader.pget_s48l, hp]

/-- C3 witness: a concrete six-byte buffer, read at offset 0. -/
theorem c3_byte_assembly_witness :
    (StringReader.mk [128, 1, 2, 255, 4, 5] 0).pget_u24b 0 =
      some (128 * 2 ^ 16 + 1 * 2 ^ 8 + 2) :=
  ((c3_byte_assembly_sign_extension (StringReader.mk [128, 1, 2, 255, 4, 5] 0) 0
      (by decide)).1 (by decide)).1

/-- C4 counterexample: at `offset = 2^64 - 1` on an empty writer,
`offset` exceeds the current size, yet `pput` of a two-byte value resizes
the buffer to `(offset + 2) mod 2^64 = 1`, so `size()` afterward is 1 and
not `offset + sizeof(T)` (which no `size_t` could even hold); the
`memcpy` then writes out of bounds. -/
theorem c4_pput_overflow_counterexample :
    2 ^ 64 - 1 > (StringWriter.mk []).contents.length ∧
    ((StringWriter.mk []).pput (2 ^ 64 - 1) [0, 0]).contents.length = 1 ∧
    (1 : Nat) ≠ 2 ^ 64 - 1 + 2 := by
  refine ⟨by decide, by decide, by decide⟩

/-- C4 (amended): for `offset > size()` with `offset + sizeof(T)` free of
`size_t` overflow, `pput` never fails: the buffer grows so that the bytes
in `[old_size, offset)` are zero, the encoding occupies
`[offset, offset + sizeof(T))`, and `size()` afterward is
`offset + sizeof(T)`. -/
theorem c4_pput_grow_zero_fill (w : StringWriter) (offset : Nat) (bs : List Nat)
    (h1 : w.contents.length < offset) (h2 : offset + bs.length < 2 ^ 64) :
    ((w.pput offset bs).contents.length = offset + bs.length) ∧
    (∀ i, w.contents.length ≤ i → i < offset →
      (w.pput offset bs).contents.getD i 0 = 0) ∧
    (∀ i, i < bs.length →
      (w.pput offset bs).contents.getD (offset + i) 0 = bs.getD i 0) := by
  have ha : add64 offset bs.length = offset + bs.length := add64_eq _ _ h2
  have hG : (w.pput offset bs).contents =
      storeBytes (w.contents ++
        List.replicate (offset + bs.length - w.contents.length) 0) offset bs := by
    simp only [StringWriter.pput, ha, if_pos (show offset + bs.length > w.contents.length
      by omega)]
  have hGlen : (w.contents ++
      List.replicate (offset + bs.length - w.contents.length) 0).length =
        offset + bs.length := by
    rw [List.length_append, List.length_replicate]
    omega
  refine ⟨?_, ?_, ?_⟩
  · rw [hG, storeBytes_length, hGlen]
  · intro i hi1 hi2
    rw [hG, List.getD_eq_getElem?_getD, storeBytes_get_low _ _ _ _ hi2,
      List.getElem?_append_right (by omega), List.getElem?_replicate,
      if_pos (by omega)]
    rfl
  · intro i hi
    rw [hG, List.getD_eq_getElem?_getD,
      storeBytes_get_mid _ _ _ _ hi (le_of_eq hGlen.symm),
      ← List.getD_eq_getElem?_getD]

/-- C4 witness: growing a one-byte writer by a positional two-byte write
at offset 3 yields size 5. -/
theorem c4_pput_grow_witness :
    ((StringWriter.mk [5]).pput 3 [7, 8]).contents.length = 3 + 2 :=
  (c4_pput_grow_zero_fill (StringWriter.mk [5]) 3 [7, 8] (by decide) (by decide)).1

/-- C9: a non-growing positional write keeps `size()` and every byte
outside the written window; and in all cases (growing included) every
byte of the original contents below `offset` keeps its value. -/
theorem c9_pput_frame (w : StringWriter) (offset : Nat) (bs : List Nat) :
    (offset + bs.length ≤ w.contents.length →
      ((w.pput offset bs).contents.length = w.contents.length) ∧
      (∀ i, i < w.contents.length → i < offset ∨ offset + bs.length ≤ i →
        (w.pput offset bs).contents.getD i 0 = w.contents.getD i 0)) ∧
    (∀ i, i < offset → i < w.contents.length →
      (w.pput offset bs).contents.getD i 0 = w.contents.getD i 0) := by
  constructor
  · intro h
    have hcond : ¬ (add64 offset bs.length > w.contents.length) :=
      not_lt.2 (le_trans (add64_le _ _) h)
    have hG : (w.pput offset bs).contents = storeBytes w.contents offset bs := by
      simp only [StringWriter.pput, if_neg hcond]
    refine ⟨by rw [hG, storeBytes_length], ?_⟩
    intro i _ hor
    rcases hor with hlt | hge
    · rw [hG, List.getD_eq_getElem?_getD, storeBytes_get_low _ _ _ _ hlt,
        ← List.getD_eq_getElem?_getD]
    · rw [hG, List.getD_eq_getElem?_getD, storeBytes_get_high _ _ _ _ hge,
        ← List.getD_eq_getElem?_getD]
  · intro i hio hil
    by_cases hcond : add64 offset bs.length > w.contents.length
    · have hG : (w.pput offset bs).contents =
          storeBytes (w.contents ++
            List.replicate (add64 offset bs.length - w.contents.length) 0) offset bs := by
        simp only [StringWriter.pput, if_pos hcond]
      rw [hG, List.getD_eq_getElem?_getD, storeBytes_get_low _ _ _ _ hio,
        List.getElem?_append, if_pos hil, ← List.getD_eq_getElem?_getD]
    · have hG : (w.pput offset bs).contents = storeBytes w.contents offset bs := by
        simp only [StringWriter.pput, if_neg hcond]
      rw [hG, List.getD_eq_getElem?_getD, storeBytes_get_low _ _ _ _ hio,
        ← List.getD_eq_getElem?_getD]

/-- C9 witness: a concrete in-place write frames the byte below it. -/
theorem c9_pput_frame_witness :
    ((StringWriter.mk [1, 2, 3, 4]).pput 1 [9, 9]).contents.getD 0 0 =
      (StringWriter.mk [1, 2, 3, 4]).contents.getD 0 0 :=
  (c9_pput_frame (StringWriter.mk [1, 2, 3, 4]) 1 [9, 9]).2 0 (by decide) (by decide)

/-- C6 counterexample: `StringWriter` provides `put_*` integer accessors
only for widths 8, 16, 32 and 64 — there is no 24- or 48-bit `put_*`
accessor, so for widths 24 and 48 the claim's "matching StringWriter
put_* accessor" does not exist. -/
theorem c6_no_put_accessor_24_48 :
    StringWriter.hasPutOfWidth 24 = false ∧ StringWriter.hasPutOfWidth 48 = false ∧
    StringWriter.hasPutOfWidth 16 = true := by
  decide

/-- C6 (amended): for widths 8, 16, 32 and 64 (8-bit having a single
order-free accessor pair), both signednesses and both byte orders,
writing any representable value with the `put_*` accessor and reading it
back from the written bytes with the matching `get_*` accessor yields
exactly the value; for widths 24 and 48, for which the writer has no
`put_*` accessor, reading bytes laid out in the order given by the suffix
with the matching `get_*` accessor yields exactly the value they encode. -/
theorem c6_roundtrip (w : StringWriter) :
    (∀ v : Nat, v < 2 ^ 8 →
      ((StringReader.mk (w.put_u8 v).contents w.contents.length).get_u8 true).1 =
        some v) ∧
    (∀ v : Int, -(2 ^ 7) ≤ v → v < 2 ^ 7 →
      ((StringReader.mk (w.put_s8 v).contents w.contents.length).get_s8 true).1 =
        some v) ∧
    (∀ v : Nat, v < 2 ^ 16 →
      ((StringReader.mk (w.put_u16b v).contents w.contents.length).get_u16b true).1 =
        some v) ∧
    (∀ v : Nat, v < 2 ^ 16 →
      ((StringReader.mk (w.put_u16l v).contents w.contents.length).get_u16l true).1 =
        some v) ∧
    (∀ v : Int, -(2 ^ 15) ≤ v → v < 2 ^ 15 →
      ((StringReader.mk (w.put_s16b v).contents w.contents.length).get_s16b true).1 =
        some v) ∧
    (∀ v : Int, -(2 ^ 15) ≤ v → v < 2 ^ 15 →
      ((StringReader.mk (w.put_s16l v).contents w.contents.length).get_s16l true).1 =
        some v) ∧
    (∀ v : Nat, v < 2 ^ 32 →
      ((StringReader.mk (w.put_u32b v).contents w.contents.length).get_u32b true).1 =
        some v) ∧
    (∀ v : Nat, v < 2 ^ 32 →
      ((StringReader.mk (w.put_u32l v).contents w.contents.length).get_u32l true).1 =
        some v) ∧
    (∀ v : Int, -(2 ^ 31) ≤ v → v < 2 ^ 31 →
      ((StringReader.mk (w.put_s32b v).contents w.contents.length).get_s32b true).1 =
        some v) ∧
    (∀ v : Int, -(2 ^ 31) ≤ v → v < 2 ^ 31 →
      ((StringReader.mk (w.put_s32l v).contents w.contents.length).get_s32l true).1 =
        some v) ∧
    (∀ v : Nat, v < 2 ^ 64 →
      ((StringReader.mk (w.put_u64b v).contents w.contents.length).get_u64b true).1 =
        some v) ∧
    (∀ v : Nat, v < 2 ^ 64 →
      ((StringReader.mk (w.put_u64l v).contents w.contents.length).get_u64l true).1 =
        some v) ∧
    (∀ v : Int, -(2 ^ 63) ≤ v → v < 2 ^ 63 →
      ((StringReader.mk (w.put_s64b v).contents w.contents.length).get_s64b true).1 =
        some v) ∧
    (∀ v : Int, -(2 ^ 63) ≤ v → v < 2 ^ 63 →
      ((StringReader.mk (w.put_s64l v).contents w.contents.length).get_s64l true).1 =
        some v) ∧
    (∀ v : Nat, v < 2 ^ 24 →
      ((StringReader.mk (w.contents ++ beBytes 3 v) w.contents.length).get_u24b true).1 =
        some v) ∧
    (∀ v : Nat, v < 2 ^ 24 →
      ((StringReader.mk (w.contents ++ leBytes 3 v) w.contents.length).get_u24l true).1 =
        some v) ∧
    (∀ v : Int, -(2 ^ 23) ≤ v → v < 2 ^ 23 →
      ((StringReader.mk (w.contents ++ beBytes 3 (toUnsigned 24 v))
        w.contents.length).get_s24b true).1 = some v) ∧
    (∀ v : Int, -(2 ^ 23) ≤ v → v < 2 ^ 23 →
      ((StringReader.mk (w.contents ++ leBytes 3 (toUnsigned 24 v))
        w.contents.length).get_s24l true).1 = some v) ∧
    (∀ v : Nat, v < 2 ^ 48 →
      ((StringReader.mk (w.contents ++ beBytes 6 v) w.contents.length).get_u48b true).1 =
        some v) ∧
    (∀ v : Nat, v < 2 ^ 48 →
      ((StringReader.mk (w.contents ++ leBytes 6 v) w.contents.length).get_u48l true).1 =
        some v) ∧
    (∀ v : Int, -(2 ^ 47) ≤ v → v < 2 ^ 47 →
      ((StringReader.mk (w.contents ++ beBytes 6 (toUnsigned 48 v))
        w.contents.length).get_s48b true).1 = some v) ∧
    (∀ v : Int, -(2 ^ 47) ≤ v → v < 2 ^ 47 →
      ((StringReader.mk (w.contents ++ leBytes 6 (toUnsigned 48 v))
        w.contents.length).get_s48l true).1 = some v) := by
  refine ⟨?_, ?_, ?_, ?_, ?_, ?_, ?_, ?_, ?_, ?_, ?_, ?_, ?_, ?_, ?_, ?_, ?_, ?_, ?_,
    ?_, ?_, ?_⟩
  · intro v hv
    show (((StringReader.mk (w.contents ++ [v % 2 ^ 8]) w.contents.length).getv 1
      true).1).map beDecode = some v
    rw [Nat.mod_eq_of_lt hv]
    have hg : ((StringReader.mk (w.contents ++ [v]) w.contents.length).getv 1 true).1 =
        some [v] := getv_append w.contents [v] true
    have hd : beDecode [v] = v := by
      unfold beDecode
      simp only [List.foldl_cons, List.foldl_nil]
      omega
    rw [hg, Option.map_some', hd]
  · intro v hl hh
    show (((StringReader.mk (w.contents ++ [toUnsigned 8 v]) w.contents.length).getv 1
      true).1).map (fun bs => sExt 8 (beDecode bs)) = some v
    have hg : ((StringReader.mk (w.contents ++ [toUnsigned 8 v])
        w.contents.length).getv 1 true).1 = some [toUnsigned 8 v] :=
      getv_append w.contents [toUnsigned 8 v] true
    have hd : beDecode [toUnsigned 8 v] = toUnsigned 8 v := by
      unfold beDecode
      simp only [List.foldl_cons, List.foldl_nil]
      omega
    rw [hg, Option.map_some', hd, sExt_toUnsigned 8 (by norm_num) v hl hh]
  · intro v hv
    show (((StringReader.mk (w.contents ++ beBytes 2 (v % 2 ^ 16))
      w.contents.length).getv 2 true).1).map beDecode = some v
    rw [Nat.mod_eq_of_lt hv]
    exact get_be_append w.contents 2 v true hv
  · intro v hv
    show (((StringReader.mk (w.contents ++ leBytes 2 (v % 2 ^ 16))
      w.contents.length).getv 2 true).1).map leDecode = some v
    rw [Nat.mod_eq_of_lt hv]
    exact get_le_append w.contents 2 v true hv
  · intro v hl hh
    show (((StringReader.mk (w.contents ++ beBytes 2 (toUnsigned 16 v))
      w.contents.length).getv 2 true).1).map (fun bs => sExt 16 (beDecode bs)) = some v
    exact get_be_s_append w.contents 2 v true (by norm_num) hl hh
  · intro v hl hh
    show (((StringReader.mk (w.contents ++ leBytes 2 (toUnsigned 16 v))
      w.contents.length).getv 2 true).1).map (fun bs => sExt 16 (leDecode bs)) = some v
    exact get_le_s_append w.contents 2 v true (by norm_num) hl hh
  · intro v hv
    show (((StringReader.mk (w.contents ++ beBytes 4 (v % 2 ^ 32))
      w.contents.length).getv 4 true).1).map beDecode = some v
    rw [Nat.mod_eq_of_lt hv]
    exact get_be_append w.contents 4 v true hv
  · intro v hv
    show (((StringReader.mk (w.contents ++ leBytes 4 (v % 2 ^ 32))
      w.contents.length).getv 4 true).1).map leDecode = some v
    rw [Nat.mod_eq_of_lt hv]
    exact get_le_append w.contents 4 v true hv
  · intro v hl hh
    show (((StringReader.mk (w.contents ++ beBytes 4 (toUnsigned 32 v))
      w.contents.length).getv 4 true).1).map (fun bs => sExt 32 (beDecode bs)) = some v
    exact get_be_s_append w.contents 4 v true (by norm_num) hl hh
  · intro v hl hh
    show (((StringReader.mk (w.contents ++ leBytes 4 (toUnsigned 32 v))
      w.contents.length).getv 4 true).1).map (fun bs => sExt 32 (leDecode bs)) = some v
    exact get_le_s_append w.contents 4 v true (by norm_num) hl hh
  · intro v hv
    show (((StringReader.mk (w.contents ++ beBytes 8 (v % 2 ^ 64))
      w.contents.length).getv 8 true).1).map beDecode = some v
    rw [Nat.mod_eq_of_lt hv]
    exact get_be_append w.contents 8 v true hv
  · intro v hv
    show (((StringReader.mk (w.contents ++ leBytes 8 (v % 2 ^ 64))
      w.contents.length).getv 8 true).1).map leDecode = some v
    rw [Nat.mod_eq_of_lt hv]
    exact get_le_append w.contents 8 v true hv
  · intro v hl hh
    show (((StringReader.mk (w.contents ++ beBytes 8 (toUnsigned 64 v))
      w.contents.length).getv 8 true).1).map (fun bs => sExt 64 (beDecode bs)) = some v
    exact get_be_s_append w.contents 8 v true (by norm_num) hl hh
  · intro v hl hh
    show (((StringReader.mk (w.contents ++ leBytes 8 (toUnsigned 64 v))
      w.contents.length).getv 8 true).1).map (fun bs => sExt 64 (leDecode bs)) = some v
    exact get_le_s_append w.contents 8 v true (by norm_num) hl hh
  · intro v hv
    rw [get_u24b_fst]
    show (StringReader.mk (w.contents ++ beBytes 3 v) w.contents.length).pget_u24b
      w.contents.length = some v
    rw [pget_u24b_append w.contents (beBytes 3 v) w.contents.length (beBytes_length 3 v)
      (beBytes_lt 3 v), beDecode_beBytes 3 v hv]
  · intro v hv
    rw [get_u24l_fst]
    show (StringReader.mk (w.contents ++ leBytes 3 v) w.contents.length).pget_u24l
      w.contents.length = some v
    rw [pget_u24l_append w.contents (leBytes 3 v) w.contents.length (leBytes_length 3 v)
      (leBytes_lt 3 v), leDecode_leBytes_eq 3 v hv]
  · intro v hl hh
    rw [get_s24b_fst]
    show (StringReader.mk (w.contents ++ beBytes 3 (toUnsigned 24 v))
      w.contents.length).pget_s24b w.contents.length = some v
    rw [StringReader.pget_s24b,
      pget_u24b_append w.contents (beBytes 3 (toUnsigned 24 v)) w.contents.length
        (beBytes_length _ _) (beBytes_lt _ _),
      Option.map_some']
    show some (sExt 24 (beDecode (beBytes 3 (toUnsigned 24 v)))) = some v
    rw [beDecode_beBytes _ _ (toUnsigned_lt _ _), sExt_toUnsigned 24 (by norm_num) v hl hh]
  · intro v hl hh
    rw [get_s24l_fst]
    show (StringReader.mk (w.contents ++ leBytes 3 (toUnsigned 24 v))
      w.contents.length).pget_s24l w.contents.length = some v
    rw [StringReader.pget_s24l,
      pget_u24l_append w.contents (leBytes 3 (toUnsigned 24 v)) w.contents.length
        (leBytes_length _ _) (leBytes_lt _ _),
      Option.map_some']
    show some (sExt 24 (leDecode (leBytes 3 (toUnsigned 24 v)))) = some v
    rw [leDecode_leBytes_eq _ _ (toUnsigned_lt _ _),
      sExt_toUnsigned 24 (by norm_num) v hl hh]
  · intro v hv
    rw [get_u48b_fst]
    show (StringReader.mk (w.contents ++ beBytes 6 v) w.contents.length).pget_u48b
      w.contents.length = some v
    rw [pget_u48b_append w.contents (beBytes 6 v) w.contents.length (beBytes_length 6 v)
      (beBytes_lt 6 v), beDecode_beBytes 6 v hv]
  · intro v hv
    rw [get_u48l_fst]
    show (StringReader.mk (w.contents ++ leBytes 6 v) w.contents.length).pget_u48l
      w.contents.length = some v
    rw [pget_u48l_append w.contents (leBytes 6 v) w.contents.length (leBytes_length 6 v)
      (leBytes_lt 6 v), leDecode_leBytes_eq 6 v hv]
  · intro v hl hh
    rw [get_s48b_fst]
    show (StringReader.mk (w.contents ++ beBytes 6 (toUnsigned 48 v))
      w.contents.length).pget_s48b w.contents.length = some v
    rw [StringReader.pget_s48b,
      pget_u48b_append w.contents (beBytes 6 (toUnsigned 48 v)) w.contents.length
        (beBytes_length _ _) (beBytes_lt _ _),
      Option.map_some']
    show some (sExt 48 (beDecode (beBytes 6 (toUnsigned 48 v)))) = some v
    rw [beDecode_beBytes _ _ (toUnsigned_lt _ _), sExt_toUnsigned 48 (by norm_num) v hl hh]
  · intro v hl hh
    rw [get_s48l_fst]
    show (StringReader.mk (w.contents ++ leBytes 6 (toUnsigned 48 v))
      w.contents.length).pget_s48l w.contents.length = some v
    rw [StringReader.pget_s48l,
      pget_u48l_append w.contents (leBytes 6 (toUnsigned 48 v)) w.contents.length
        (leBytes_length _ _) (leBytes_lt _ _),
      Option.map_some']
    show some (sExt 48 (leDecode (leBytes 6 (toUnsigned 48 v)))) = some v
    rw [leDecode_leBytes_eq _ _ (toUnsigned_lt _ _),
      sExt_toUnsigned 48 (by norm_num) v hl hh]

/-- C6 witness: writing `-1` as a big-endian signed 16-bit value into an
empty writer and reading it back yields `-1`. -/
theorem c6_roundtrip_witness :
    ((StringReader.mk ((StringWriter.mk []).put_s16b (-1)).contents 0).get_s16b true).1 =
      some (-1) :=
  (c6_roundtrip (StringWriter.mk [])).2.2.2.2.1 (-1) (by norm_num) (by norm_num)

/-- C10: comment stripping preserves every newline: the compacted string
(the output in non-strict mode, and the value the string holds in strict
mode as well) has exactly as many `'\n'` characters as the input. -/
theorem c10_newline_count_preserved (cs : List Char) :
    (stripRun false cs).2.count '\n' = cs.count '\n' ∧
    strip_multiline_comments cs true = some ((stripRun false cs).2) :=
  ⟨stripRun_count false cs, by simp [strip_multiline_comments]⟩

end Phosg
